import Mathlib

/-!
Verification development for the fetch-strategy-and-cache subsystem of the
shadcn-svelte documentation MCP server.

The embedding follows the TypeScript source:
* the documentation fetcher (`tryFetchMarkdown`, `fetchHtmlAndConvert`,
  `fetchUrl`, the Crawlee strategy, content-type inference, the Markdown
  unescape pass), and
* the cache manager (`getFromCache`, `saveToCache`, `addToMemoryCache`,
  `cleanupCache`, `getCacheKey`).

External effects (the network, the headless browser, the cheerio/turndown
HTML pipeline, disk I/O, the clock) are passed in explicitly as oracle
values or oracle functions; everything the repository's own code computes is
embedded as executable Lean definitions.  JavaScript strings are modelled as
`String`/`List Char` (UTF-16 code-unit subtleties do not affect any claim),
JavaScript numbers used by the code as `Nat`/`Int` with explicit 32-bit
truncation where the source relies on it.
-/

namespace ShadcnSvelteMcp

/-! ### JavaScript string primitives

`listStartsWith pat s` is `true` iff `pat` is an initial segment of `s`;
`occursIn pat s` is JavaScript's `s.includes(pat)` on code-unit lists. -/

def listStartsWith : List Char → List Char → Bool
  | [], _ => true
  | _ :: _, [] => false
  | p :: ps, c :: cs => p = c && listStartsWith ps cs

def occursIn (pat : List Char) : List Char → Bool
  | [] => listStartsWith pat []
  | c :: rest => listStartsWith pat (c :: rest) || occursIn pat rest

/-- JavaScript `s.includes(sub)`. -/
def strContains (s sub : String) : Bool :=
  occursIn sub.toList s.toList

/-- JavaScript `s.endsWith(sub)`. -/
def strEndsWith (s sub : String) : Bool :=
  listStartsWith sub.toList.reverse s.toList.reverse

/-- The common JavaScript `\s` / trim whitespace characters (space, tab,
line feed, vertical tab, form feed, carriage return, no-break space; the
rarer Unicode space characters are omitted — no claim depends on them). -/
def isJsWhitespace (c : Char) : Bool :=
  c = Char.ofNat 32 || c = Char.ofNat 9 || c = Char.ofNat 10 ||
  c = Char.ofNat 11 || c = Char.ofNat 12 || c = Char.ofNat 13 ||
  c = Char.ofNat 160

/-- JavaScript `s.trim()`. -/
def jsTrim (s : String) : String :=
  String.mk (((s.toList.dropWhile isJsWhitespace).reverse.dropWhile isJsWhitespace).reverse)

/-- One pass of JavaScript `s.replace(/pat/g, rep)` for a literal pattern:
scan left to right, replace non-overlapping occurrences, never rescan the
replacement text.  The `fuel` argument only makes the recursion structural;
it is initialised with the length of the scanned text, which every call
consumes at least one unit of. -/
def replaceAllGo (pat rep : List Char) : Nat → List Char → List Char
  | 0, s => s
  | _ + 1, [] => []
  | fuel + 1, c :: rest =>
    if listStartsWith pat (c :: rest) then
      rep ++ replaceAllGo pat rep fuel ((c :: rest).drop pat.length)
    else
      c :: replaceAllGo pat rep fuel rest

/-- JavaScript `s.replace(/pat/g, rep)` for a literal pattern `pat`. -/
def replaceAll (s pat rep : String) : String :=
  String.mk (replaceAllGo pat.toList rep.toList s.toList.length s.toList)

/-! Characters written via their code points so that the file never carries a
bare quote, apostrophe or backslash inside a literal: 92 is the backslash,
34 the double quote, 39 the apostrophe. -/

def backslashChar : Char := Char.ofNat 92

def quoteChar : Char := Char.ofNat 34

def apostropheChar : Char := Char.ofNat 39

/-- The two-character pattern backslash–quote. -/
def bsQuotePat : String := String.mk [backslashChar, quoteChar]

/-- The two-character pattern backslash–apostrophe. -/
def bsAposPat : String := String.mk [backslashChar, apostropheChar]

/-- The six-character HTML entity for an apostrophe: ampersand, `a`, `p`,
`o`, `s`, semicolon. -/
def aposEntityPat : String := String.mk ['&', 'a', 'p', 'o', 's', ';']

/-- A one-character string holding the double quote. -/
def quoteStr : String := String.mk [quoteChar]

/-- A one-character string holding the apostrophe. -/
def aposStr : String := String.mk [apostropheChar]

/-- `unescapeMarkdown` from the documentation fetcher: three sequential
global replacements — backslash-quote to quote, backslash-apostrophe to
apostrophe, `&apos;` to apostrophe. -/
def unescapeMarkdown (markdown : String) : String :=
  replaceAll (replaceAll (replaceAll markdown bsQuotePat quoteStr) bsAposPat aposStr)
    aposEntityPat aposStr

/-! ### Title extraction

`markdown.match(/^#\s+(.+)$/m)`: the first line that consists of a hash
mark, at least one whitespace character, and at least one further character;
the capture drops the maximal whitespace run after the hash mark except that
the greedy `.+` backtracks to keep at least one character.  Lines are split
on the line-feed character (the other JavaScript line terminators are not
produced by the fetched documents). -/

def splitLines : List Char → List (List Char)
  | [] => [[]]
  | c :: rest =>
    match splitLines rest with
    | [] => [[]]
    | line :: more =>
      if c = Char.ofNat 10 then [] :: line :: more else (c :: line) :: more

def matchHeadingLine (l : List Char) : Option (List Char) :=
  match l with
  | [] => none
  | c :: rest =>
    if c = '#' ∧ rest.length ≥ 2 ∧ isJsWhitespace (rest.headD ' ') then
      some (rest.drop (min (rest.takeWhile isJsWhitespace).length (rest.length - 1)))
    else none

def extractTitle (markdown : String) : Option String :=
  (splitLines markdown.toList).findSome? fun line =>
    (matchHeadingLine line).map String.mk

/-! ### Data model (types from the documentation fetcher) -/

/-- The `type` union of `FetchResult`. -/
inductive CType where
  | component | doc | block | chart | theme | unknown
deriving DecidableEq

/-- The `source` union of `FetchResult`. -/
inductive SourceTag where
  | cache | md | html | crawlee
deriving DecidableEq

structure CodeBlock where
  language : Option String := none
  code : String
  title : Option String := none
deriving DecidableEq

structure DocumentMetadata where
  title : Option String := none
  description : Option String := none
  author : Option String := none
  keywords : Option (List String) := none
  ogImage : Option String := none
  url : Option String := none
  lastModified : Option String := none
deriving DecidableEq

/-- The `FetchResult` interface; optional TypeScript fields become
`Option`, an absent field is `none`. -/
structure FetchResult where
  success : Bool
  content : Option String := none
  markdown : Option String := none
  html : Option String := none
  metadata : Option DocumentMetadata := none
  warnings : Option (List String) := none
  notes : Option (List String) := none
  type : Option CType := none
  source : Option SourceTag := none
  codeBlocks : Option (List CodeBlock) := none
  error : Option String := none
deriving DecidableEq

/-- A thrown JavaScript value: either an `Error` instance carrying a
message, or some non-`Error` value. -/
inductive JsError where
  | error (message : String)
  | nonError
deriving DecidableEq

/-- The expression `error instanceof Error ? error.message : "Unknown error"`
used by every catch block of the fetcher. -/
def errorMessage : JsError → String
  | .error m => m
  | .nonError => "Unknown error"

structure HttpResponse where
  ok : Bool
  status : Nat
  statusText : String
  body : String
deriving DecidableEq

/-- Outcome of one `fetchWithTimeout` call: a settled response, or a thrown
value (network failure or abort on timeout). -/
inductive FetchOutcome where
  | resp (response : HttpResponse)
  | threw (e : JsError)
deriving DecidableEq

/-! ### Cache manager (`src/services/cache-manager.ts`) -/

/-- `CACHE_TTL = 3 * 24 * 60 * 60 * 1000` milliseconds. -/
def CACHE_TTL : Nat := 3 * 24 * 60 * 60 * 1000

/-- `IN_MEMORY_CACHE_SIZE = 50`. -/
def IN_MEMORY_CACHE_SIZE : Nat := 50

structure CacheEntry where
  data : FetchResult
  timestamp : Nat
  url : String
deriving DecidableEq

/-- 32-bit two's-complement truncation, JavaScript's `ToInt32`. -/
def toInt32 (n : Int) : Int :=
  let m := n % 4294967296
  if m < 2147483648 then m else m - 4294967296

/-- One iteration of the `getCacheKey` loop:
`hash = (hash << 5) - hash + char; hash = hash & hash`. -/
def hashStep (h : Int) (c : Nat) : Int :=
  toInt32 (toInt32 (h * 32) - h + c)

/-- `getCacheKey`: the string hash of the URL (code units folded through
`hashStep`), made non-negative with `Math.abs` and wrapped in the cache file
name. -/
def getCacheKey (url : String) : String :=
  "cache_" ++ toString (url.toList.foldl (fun h c => hashStep h c.toNat) 0).natAbs ++ ".json"

/-- What one read of a persistent-tier cache file can yield: a parsed entry,
unparsable JSON, an I/O failure other than absence, or no file (`ENOENT`).
Serialisation of the plain-data entry record is abstracted as the identity
(the JSON round-trip of a field-for-field data object). -/
inductive DiskRead where
  | entry (e : CacheEntry)
  | corrupt
  | ioError
  | absent
deriving DecidableEq

/-- The cache manager's mutable state: the `memoryCache` map (an association
list with the keys unique, as in a JavaScript `Map`), the `accessOrder`
array, and the persistent tier keyed by file name. -/
structure CacheState where
  memory : List (String × CacheEntry)
  accessOrder : List String
  disk : String → DiskRead

/-- `Map.prototype.get`. -/
def mapGet (m : List (String × CacheEntry)) (k : String) : Option CacheEntry :=
  match m with
  | [] => none
  | (k0, v) :: rest => if k0 = k then some v else mapGet rest k

/-- `Map.prototype.set`: replace in place when the key exists, append
otherwise. -/
def mapSet (m : List (String × CacheEntry)) (k : String) (v : CacheEntry) :
    List (String × CacheEntry) :=
  match m with
  | [] => [(k, v)]
  | (k0, v0) :: rest => if k0 = k then (k, v) :: rest else (k0, v0) :: mapSet rest k v

/-- `Map.prototype.delete`. -/
def mapDelete (m : List (String × CacheEntry)) (k : String) : List (String × CacheEntry) :=
  match m with
  | [] => []
  | (k0, v0) :: rest => if k0 = k then rest else (k0, v0) :: mapDelete rest k

/-- `addToMemoryCache`: drop the key from the access order, store the entry,
push the key, and when the map has grown past `IN_MEMORY_CACHE_SIZE` shift
the oldest key and delete it (the source guards the delete with a truthiness
check on the shifted key, so the empty-string key would be shifted but not
deleted). -/
def addToMemoryCache (st : CacheState) (key : String) (e : CacheEntry) : CacheState :=
  let ao := st.accessOrder.erase key
  let mem := mapSet st.memory key e
  let ao2 := ao ++ [key]
  if mem.length > IN_MEMORY_CACHE_SIZE then
    match ao2 with
    | [] => { st with memory := mem, accessOrder := [] }
    | oldest :: rest =>
      if oldest = "" then { st with memory := mem, accessOrder := rest }
      else { st with memory := mapDelete mem oldest, accessOrder := rest }
  else { st with memory := mem, accessOrder := ao2 }

/-- `saveToCache` at wall-clock time `now`; `diskWriteOk` is the oracle for
whether `fs.writeFile` succeeds (its failure is caught and only logged). -/
def saveToCache (st : CacheState) (now : Nat) (url : String) (data : FetchResult)
    (diskWriteOk : Bool) : CacheState :=
  let key := getCacheKey url
  let e : CacheEntry := { data := data, timestamp := now, url := url }
  let st1 := addToMemoryCache st key e
  if diskWriteOk then
    { st1 with disk := fun k => if k = key then .entry e else st1.disk k }
  else st1

/-- Result of `getFromCache`: the returned value and the state after the
call's side effects. -/
structure CacheGet where
  value : Option FetchResult
  state : CacheState

/-- The disk-tier half of `getFromCache` (the `try { readFile ... }` block):
a fresh entry is promoted into the memory tier and returned, an expired
entry is unlinked, and every failure of reading or parsing is caught and
falls through to the final `return null`. -/
def diskLookup (st : CacheState) (now : Nat) (key : String) : CacheGet :=
  match st.disk key with
  | .entry e =>
    if now - e.timestamp < CACHE_TTL then
      { value := some e.data, state := addToMemoryCache st key e }
    else
      { value := none,
        state := { st with disk := fun k => if k = key then .absent else st.disk k } }
  | _ => { value := none, state := st }

/-- `getFromCache` at wall-clock time `now`: memory tier first (a fresh hit
refreshes the access order, an expired entry is deleted from the map and the
access order), then the disk tier. -/
def getFromCache (st : CacheState) (now : Nat) (url : String) : CacheGet :=
  let key := getCacheKey url
  match mapGet st.memory key with
  | some e =>
    if now - e.timestamp < CACHE_TTL then
      { value := some e.data,
        state := { st with accessOrder := st.accessOrder.erase key ++ [key] } }
    else
      diskLookup
        { st with memory := mapDelete st.memory key,
                  accessOrder := st.accessOrder.erase key } now key
  | none => diskLookup st now key

/-- `cleanupCache` at wall-clock time `now`: every persistent-tier file that
parses to an entry at least `CACHE_TTL` old is unlinked; unparsable files
are skipped by the inner catch and everything younger is left in place. -/
def cleanupCache (disk : String → DiskRead) (now : Nat) : String → DiskRead :=
  fun k =>
    match disk k with
    | .entry e => if now - e.timestamp ≥ CACHE_TTL then .absent else .entry e
    | other => other

/-! ### Documentation fetcher (`documentation-fetcher`, the Crawlee version) -/

/-- `SHADCN_BASE_URL`. -/
def SHADCN_BASE_URL : String := "https://www.shadcn-svelte.com"

/-- The URL variant requested by the direct strategy:
`url.endsWith(".md") ? url : url + ".md"`. -/
def mdUrlOf (url : String) : String :=
  if strEndsWith url ".md" then url else url ++ ".md"

/-- `tryFetchMarkdown`, as a function of the network outcome for the `.md`
request: on a thrown error it returns `null`; on a non-2xx response it
returns `null`; on `response.ok` it unescapes the body, extracts a title
from the first heading, and returns a `success: true` result tagged as a
component fetched from the `md` source.  Note there is no check that the
body is non-empty. -/
def tryFetchMarkdown (fetchOutcome : FetchOutcome) (url : String) : Option FetchResult :=
  match fetchOutcome with
  | .threw _ => none
  | .resp response =>
    if response.ok then
      let markdown := unescapeMarkdown response.body
      let title := extractTitle markdown
      some { success := true
             content := some markdown
             markdown := some markdown
             metadata := some { title := title, url := some (mdUrlOf url) }
             type := some .component
             source := some .md }
    else none

/-- Content-type inference from the URL, the if/else chain of
`fetchHtmlAndConvert` (and, identically, of the Crawlee request handler):
substring matches tried in a fixed order, first match wins, no match leaves
`unknown`. -/
def inferContentType (url : String) : CType :=
  if strContains url "/docs/components/" then .component
  else if strContains url "/docs/" then .doc
  else if strContains url "/blocks" then .block
  else if strContains url "/charts" then .chart
  else if strContains url "/themes" then .theme
  else .unknown

/-- Oracles for the HTML-scrape strategy: the network outcome for the page,
and the external cheerio/turndown pipeline.  `extractContent` is the
cheerio selection (main sections, else `main`/`article`/`body`, else the
empty string) applied to the page HTML after chrome removal; `turndown` is
the HTML-to-Markdown conversion; `metadataOf` is `extractMetadata` on the
parsed page; `codeBlocksOf` is the fenced-code-block scan over the produced
Markdown (no claim concerns its internals). -/
structure HtmlEnv where
  fetchOutcome : FetchOutcome
  extractContent : String → String
  turndown : String → String
  metadataOf : String → DocumentMetadata
  codeBlocksOf : String → List CodeBlock

/-- `fetchHtmlAndConvert`: a thrown fetch is caught into a failure result;
a non-2xx response raises `HTTP <status>: <statusText>` which the same catch
turns into a failure; empty or whitespace-only extracted content raises
`Could not find main content in HTML`; otherwise the converted Markdown is
returned as a `success: true` result tagged with the inferred content type
and the `html` source. -/
def fetchHtmlAndConvert (env : HtmlEnv) (url : String) : FetchResult :=
  match env.fetchOutcome with
  | .threw e => { success := false, error := some (errorMessage e) }
  | .resp response =>
    if response.ok = false then
      { success := false
        error := some ("HTTP " ++ toString response.status ++ ": " ++ response.statusText) }
    else
      let content := env.extractContent response.body
      if content = "" ∨ jsTrim content = "" then
        { success := false, error := some "Could not find main content in HTML" }
      else
        let markdown := env.turndown content
        let codeBlocks := env.codeBlocksOf markdown
        { success := true
          content := some markdown
          markdown := some markdown
          html := some content
          metadata := some (env.metadataOf response.body)
          type := some (inferContentType url)
          codeBlocks := if codeBlocks.length > 0 then some codeBlocks else none
          source := some .html }

/-- How one `tryFetchWithCrawlee` run can unfold, as seen by the code that
fills `result.data`: the request handler reached network idle and serialised
the page (`rendered`); an awaited step inside the handler's try block threw
before the extraction pipeline ran (`handlerThrew`); the crawler invoked
`failedRequestHandler` with an error whose message is recorded
(`requestFailed`); the crawl finished without either handler touching
`result.data` (`noData`); or the surrounding try block caught an exception
from crawler setup or `crawler.run` (`crashed`). -/
inductive CrawleeOutcome where
  | rendered (html : String)
  | handlerThrew (e : JsError)
  | requestFailed (message : String)
  | noData
  | crashed

/-- Oracles for the browser (Crawlee) strategy: how the run unfolded, and
the same external cheerio/turndown pipeline as the HTML strategy, applied to
the browser-rendered page HTML. -/
structure CrawleeEnv where
  run : CrawleeOutcome
  extractContent : String → String
  turndown : String → String
  metadataOf : String → DocumentMetadata
  codeBlocksOf : String → List CodeBlock

/-- `tryFetchWithCrawlee`: the request handler converts the rendered page
through the extraction pipeline into a `success: true` result tagged with
the inferred content type and the `crawlee` source, raising on empty or
whitespace-only extracted content; its catch block and the
`failedRequestHandler` store `success: false` results carrying the error
message; and when `result.data` was never set, or the outer try block
caught, the function returns `null`. -/
def tryFetchWithCrawlee (env : CrawleeEnv) (url : String) : Option FetchResult :=
  match env.run with
  | .crashed => none
  | .noData => none
  | .requestFailed message => some { success := false, error := some message }
  | .handlerThrew e => some { success := false, error := some (errorMessage e) }
  | .rendered html =>
    let content := env.extractContent html
    if content = "" ∨ jsTrim content = "" then
      some { success := false, error := some "Could not find main content in HTML" }
    else
      let markdown := env.turndown content
      let codeBlocks := env.codeBlocksOf markdown
      some { success := true
             content := some markdown
             markdown := some markdown
             html := some content
             metadata := some (env.metadataOf html)
             type := some (inferContentType url)
             codeBlocks := if codeBlocks.length > 0 then some codeBlocks else none
             source := some .crawlee }

/-- The `isJsHeavyPage` test of `fetchUrl`: the URL shapes routed through
the Crawlee (browser) strategy. -/
def isJsHeavyPage (url : String) : Bool :=
  strContains url "/charts" || strContains url "/themes" ||
  strContains url "/blocks" || strContains url "/colors"

/-- The strategies of the fetcher, for recording attempt order. -/
inductive Strategy where
  | direct | browser | html
deriving DecidableEq

/-- The whole environment one `fetchUrl` call runs in: the clock, the cache
state, the network outcome of the `.md` request, the HTML strategy's
environment, the outcome of the Crawlee run (`result.data`, which is `none`
when the crawler produced no data or the whole `tryFetchWithCrawlee` body
threw — in a run over a `CrawleeEnv` this value is
`tryFetchWithCrawlee cenv url`), and the disk-write oracle for
`saveToCache`. -/
structure FetchEnv where
  now : Nat
  cacheState : CacheState
  mdFetchOutcome : FetchOutcome
  htmlEnv : HtmlEnv
  crawleeResult : Option FetchResult
  diskWriteOk : Bool

/-- What one `fetchUrl` call produces: the returned result, the strategies
invoked in order, the `saveToCache` calls made (url, data) in order, and the
final cache state. -/
structure FetchUrlOutput where
  result : FetchResult
  attempted : List Strategy
  cacheWrites : List (String × FetchResult)
  finalState : CacheState

/-- Strategy 3 of `fetchUrl`: run `fetchHtmlAndConvert` and cache the result
only when it succeeded and caching is on. -/
def htmlFallback (env : FetchEnv) (st : CacheState) (url : String) (useCache : Bool)
    (sofar : List Strategy) : FetchUrlOutput :=
  let htmlResult := fetchHtmlAndConvert env.htmlEnv url
  { result := htmlResult
    attempted := sofar ++ [.html]
    cacheWrites := if htmlResult.success ∧ useCache then [(url, htmlResult)] else []
    finalState :=
      if htmlResult.success ∧ useCache then saveToCache st env.now url htmlResult env.diskWriteOk
      else st }

/-- Strategies 1–3 of `fetchUrl`, entered after the cache check missed (or
was disabled): the direct `.md` strategy is returned and cached whenever it
is non-null (with no further success check); the Crawlee strategy runs only
for `isJsHeavyPage` URLs and its result is used only when non-null and
`success: true`; everything else falls through to the HTML strategy. -/
def runStrategies (env : FetchEnv) (st : CacheState) (url : String) (useCache : Bool) :
    FetchUrlOutput :=
  match tryFetchMarkdown env.mdFetchOutcome url with
  | some mdResult =>
    { result := mdResult
      attempted := [.direct]
      cacheWrites := if useCache then [(url, mdResult)] else []
      finalState := if useCache then saveToCache st env.now url mdResult env.diskWriteOk else st }
  | none =>
    if isJsHeavyPage url then
      match env.crawleeResult with
      | some crawleeResult =>
        if crawleeResult.success then
          { result := crawleeResult
            attempted := [.direct, .browser]
            cacheWrites := if useCache then [(url, crawleeResult)] else []
            finalState :=
              if useCache then saveToCache st env.now url crawleeResult env.diskWriteOk else st }
        else htmlFallback env st url useCache [.direct, .browser]
      | none => htmlFallback env st url useCache [.direct, .browser]
    else htmlFallback env st url useCache [.direct]

/-- `fetchUrl`: when `useCache` is on, consult the cache first and return a
hit immediately with `source` overridden to `cache` (the object spread
`{ ...cached, source: "cache" }`); otherwise run the strategy chain.  The
source reads `Date.now()` at each step; the model uses the single instant
`env.now`, which no claim distinguishes. -/
def fetchUrl (env : FetchEnv) (url : String) (useCache : Bool) : FetchUrlOutput :=
  if useCache then
    let g := getFromCache env.cacheState env.now url
    match g.value with
    | some cached =>
      { result := { cached with source := some .cache }
        attempted := []
        cacheWrites := []
        finalState := g.state }
    | none => runStrategies env g.state url useCache
  else runStrategies env env.cacheState url useCache

/-! ### Predicates and concrete example inputs used by the theorems -/

/-- A text that contains none of the three sequences the unescape pass
rewrites. -/
def cleanText (s : String) : Prop :=
  occursIn bsQuotePat.toList s.toList = false ∧
  occursIn bsAposPat.toList s.toList = false ∧
  occursIn aposEntityPat.toList s.toList = false

instance (s : String) : Decidable (cleanText s) := by
  unfold cleanText
  infer_instance

/-- The text `He said \"hi\"` (backslash-escaped quotes). -/
def exEscapedText : String :=
  String.mk ("He said ".toList ++ [backslashChar, quoteChar] ++ "hi".toList ++
    [backslashChar, quoteChar])

/-- The text `He said "hi"` (literal quotes). -/
def exCleanText : String :=
  String.mk ("He said ".toList ++ [quoteChar] ++ "hi".toList ++ [quoteChar])

/-- A text carrying the `&apos;` HTML entity (quoteless, so it can be
written literally). -/
def exEntityText : String := "It&apos;s fine"

/-- The same text with the entity rewritten to a literal apostrophe. -/
def exEntityClean : String :=
  String.mk ("It".toList ++ [apostropheChar] ++ "s fine".toList)

def exUrlJs : String := SHADCN_BASE_URL ++ "/charts/area-1"

def exUrlPlain : String := SHADCN_BASE_URL ++ "/docs/cli"

def exButtonUrl : String := SHADCN_BASE_URL ++ "/docs/components/button"

def exButtonMd : String := "# Button\n\nA clickable button."

def emptyCacheState : CacheState :=
  { memory := [], accessOrder := [], disk := fun _ => .absent }

/-- A cache state whose persistent tier always fails to parse. -/
def exCorruptCacheState : CacheState :=
  { memory := [], accessOrder := [], disk := fun _ => .corrupt }

/-- A successful result as the orchestrator would cache it. -/
def exResult : FetchResult :=
  { success := true, content := some "cached content", markdown := some "cached content",
    source := some .html }

/-- A cache state holding `exResult` for the URL `u`, stored at time 0. -/
def exStoredCacheState : CacheState :=
  { memory := [(getCacheKey "u", { data := exResult, timestamp := 0, url := "u" })]
    accessOrder := [getCacheKey "u"]
    disk := fun k =>
      if k = getCacheKey "u" then .entry { data := exResult, timestamp := 0, url := "u" }
      else .absent }

/-- A 404 on the `.md` request. -/
def exMd404 : FetchOutcome :=
  .resp { ok := false, status := 404, statusText := "Not Found", body := "" }

/-- A 200 on the `.md` request with an empty body. -/
def exMdOkEmpty : FetchOutcome :=
  .resp { ok := true, status := 200, statusText := "OK", body := "" }

/-- A 200 on the `.md` request with a small Markdown document. -/
def exMdOkButton : FetchOutcome :=
  .resp { ok := true, status := 200, statusText := "OK", body := exButtonMd }

/-- The `.md` request threw a non-`Error` value. -/
def exMdThrew : FetchOutcome := .threw .nonError

/-- An HTML strategy environment whose page fetch throws an `Error` with an
empty message. -/
def exHtmlEnvFail : HtmlEnv :=
  { fetchOutcome := .threw (.error "")
    extractContent := fun _ => ""
    turndown := fun _ => ""
    metadataOf := fun _ => {}
    codeBlocksOf := fun _ => [] }

/-- An HTML strategy environment that succeeds. -/
def exHtmlEnvOk : HtmlEnv :=
  { fetchOutcome := .resp { ok := true, status := 200, statusText := "OK", body := "page" }
    extractContent := fun _ => "x"
    turndown := fun _ => "# X"
    metadataOf := fun _ => {}
    codeBlocksOf := fun _ => [] }

/-- A Crawlee run whose outer try block caught, so the strategy returns
`null`. -/
def exCrawleeEnvCrashed : CrawleeEnv :=
  { run := .crashed
    extractContent := fun _ => ""
    turndown := fun _ => ""
    metadataOf := fun _ => {}
    codeBlocksOf := fun _ => [] }

/-- A Crawlee run whose request handler threw. -/
def exCrawleeEnvThrew : CrawleeEnv :=
  { run := .handlerThrew (.error "boom")
    extractContent := fun _ => ""
    turndown := fun _ => ""
    metadataOf := fun _ => {}
    codeBlocksOf := fun _ => [] }

/-- A Crawlee run that rendered a page the pipeline converts. -/
def exCrawleeEnvOk : CrawleeEnv :=
  { run := .rendered "page"
    extractContent := fun _ => "x"
    turndown := fun _ => "# X"
    metadataOf := fun _ => {}
    codeBlocksOf := fun _ => [] }

/-- A successful browser-strategy result. -/
def exCrawleeResult : FetchResult :=
  { success := true, content := some "crawlee content", markdown := some "crawlee content",
    source := some .crawlee }

/-- Environment for the first-success-wins scenario: direct strategy throws,
browser strategy succeeds, HTML strategy would also succeed. -/
def exEnvC2 : FetchEnv :=
  { now := 0, cacheState := emptyCacheState, mdFetchOutcome := exMdThrew,
    htmlEnv := exHtmlEnvOk, crawleeResult := some exCrawleeResult, diskWriteOk := true }

/-- Environment in which every strategy fails: the `.md` request 404s, the
crawler yields no data, the page fetch throws an `Error` whose message is
empty. -/
def exEnvAllFail : FetchEnv :=
  { now := 0, cacheState := emptyCacheState, mdFetchOutcome := exMd404,
    htmlEnv := exHtmlEnvFail, crawleeResult := none, diskWriteOk := true }

/-- Environment in which the direct `.md` strategy succeeds. -/
def exEnvMdOk : FetchEnv :=
  { now := 0, cacheState := emptyCacheState, mdFetchOutcome := exMdOkButton,
    htmlEnv := exHtmlEnvOk, crawleeResult := none, diskWriteOk := true }

/-- Environment whose cache already holds `exResult` for the URL `u`. -/
def exEnvCacheHit : FetchEnv :=
  { now := 5, cacheState := exStoredCacheState, mdFetchOutcome := exMdThrew,
    htmlEnv := exHtmlEnvFail, crawleeResult := none, diskWriteOk := true }

/-- Environment whose persistent cache tier is corrupt. -/
def exEnvCorrupt : FetchEnv :=
  { now := 0, cacheState := exCorruptCacheState, mdFetchOutcome := exMdThrew,
    htmlEnv := exHtmlEnvFail, crawleeResult := none, diskWriteOk := true }

/-- The result `tryFetchMarkdown` produces for `exUrlPlain` from a 200
response with an empty body. -/
def exEmptyMdResult : FetchResult :=
  { success := true, content := some "", markdown := some "",
    metadata := some { title := none, url := some (exUrlPlain ++ ".md") },
    type := some .component, source := some .md }

/-- The result `tryFetchMarkdown` produces for `exButtonUrl` from a 200
response with body `exButtonMd`. -/
def exButtonResult : FetchResult :=
  { success := true, content := some exButtonMd, markdown := some exButtonMd,
    metadata := some { title := some "Button", url := some (exButtonUrl ++ ".md") },
    type := some .component, source := some .md }

/-- A cache state holding an entry for the URL `u` stored at time 0, with
nothing on the persistent tier. -/
def exExpiredCacheState : CacheState :=
  { memory := [(getCacheKey "u", { data := exResult, timestamp := 0, url := "u" })]
    accessOrder := [getCacheKey "u"]
    disk := fun _ => .absent }

/-! ### Helper lemmas: the global replacement -/

theorem mk_toList (s : String) : String.mk s.toList = s := rfl

theorem replaceAllGo_of_not_occurs (pat rep : List Char) :
    ∀ fuel s, occursIn pat s = false → replaceAllGo pat rep fuel s = s := by
  intro fuel
  induction fuel with
  | zero => intro s _; rfl
  | succ n ih =>
    intro s h
    cases s with
    | nil => rfl
    | cons c rest =>
      have h2 : (listStartsWith pat (c :: rest) || occursIn pat rest) = false := h
      rw [Bool.or_eq_false_iff] at h2
      rw [replaceAllGo, if_neg (by simp [h2.1]), ih rest h2.2]

theorem replaceAll_of_not_occurs (s pat rep : String)
    (h : occursIn pat.toList s.toList = false) : replaceAll s pat rep = s := by
  rw [replaceAll, replaceAllGo_of_not_occurs pat.toList rep.toList _ _ h, mk_toList]

/-! ### Helper lemmas: the memory-tier map -/

theorem not_mem_erase_self {l : List String} (h : l.Nodup) (a : String) : a ∉ l.erase a := by
  induction l with
  | nil => simp
  | cons b bs ih =>
    rw [List.erase_cons]
    by_cases hb : b = a
    · subst hb
      rw [if_pos (by simp)]
      exact (List.nodup_cons.mp h).1
    · rw [if_neg (by simp [hb])]
      intro hm
      rcases List.mem_cons.mp hm with h1 | h1
      · exact hb h1.symm
      · exact ih (List.nodup_cons.mp h).2 h1

theorem mapGet_set_self (m : List (String × CacheEntry)) (k : String) (v : CacheEntry) :
    mapGet (mapSet m k v) k = some v := by
  induction m with
  | nil => simp [mapSet, mapGet]
  | cons p rest ih =>
    obtain ⟨k0, v0⟩ := p
    rw [mapSet]
    by_cases h : k0 = k
    · rw [if_pos h, mapGet, if_pos rfl]
    · rw [if_neg h, mapGet, if_neg h, ih]

theorem mapGet_delete_ne (m : List (String × CacheEntry)) {k0 k : String} (h : k0 ≠ k) :
    mapGet (mapDelete m k0) k = mapGet m k := by
  induction m with
  | nil => rfl
  | cons p rest ih =>
    obtain ⟨k1, v1⟩ := p
    rw [mapDelete]
    by_cases h1 : k1 = k0
    · rw [if_pos h1, mapGet, if_neg (by rw [h1]; exact h)]
    · rw [if_neg h1, mapGet, mapGet]
      by_cases h2 : k1 = k
      · rw [if_pos h2, if_pos h2]
      · rw [if_neg h2, if_neg h2, ih]

theorem mapGet_eq_none_of_not_mem (m : List (String × CacheEntry)) (k : String)
    (h : k ∉ m.map Prod.fst) : mapGet m k = none := by
  induction m with
  | nil => rfl
  | cons p rest ih =>
    obtain ⟨k0, v0⟩ := p
    simp only [List.map_cons, List.mem_cons, not_or] at h
    rw [mapGet, if_neg (fun he => h.1 he.symm), ih h.2]

theorem mem_keys_mapSet (m : List (String × CacheEntry)) (k a : String) (v : CacheEntry)
    (h : a ∈ (mapSet m k v).map Prod.fst) : a ∈ m.map Prod.fst ∨ a = k := by
  induction m with
  | nil =>
    simp [mapSet] at h
    exact Or.inr h
  | cons p rest ih =>
    obtain ⟨k0, v0⟩ := p
    rw [mapSet] at h
    by_cases h0 : k0 = k
    · rw [if_pos h0] at h
      simp only [List.map_cons, List.mem_cons] at h
      rcases h with h | h
      · exact Or.inr h
      · exact Or.inl (by simp [h])
    · rw [if_neg h0] at h
      simp only [List.map_cons, List.mem_cons] at h ⊢
      rcases h with h | h
      · exact Or.inl (Or.inl h)
      · rcases ih h with h2 | h2
        · exact Or.inl (Or.inr h2)
        · exact Or.inr h2

theorem keys_nodup_mapSet (m : List (String × CacheEntry)) (k : String) (v : CacheEntry)
    (h : (m.map Prod.fst).Nodup) : ((mapSet m k v).map Prod.fst).Nodup := by
  induction m with
  | nil => simp [mapSet]
  | cons p rest ih =>
    obtain ⟨k0, v0⟩ := p
    simp only [List.map_cons, List.nodup_cons] at h
    rw [mapSet]
    by_cases h0 : k0 = k
    · rw [if_pos h0]
      simp only [List.map_cons, List.nodup_cons]
      exact ⟨by rw [← h0]; exact h.1, h.2⟩
    · rw [if_neg h0]
      simp only [List.map_cons, List.nodup_cons]
      refine ⟨fun hm => ?_, ih h.2⟩
      rcases mem_keys_mapSet rest k k0 v hm with h2 | h2
      · exact h.1 h2
      · exact h0 h2

theorem mapGet_delete_self (m : List (String × CacheEntry)) (k : String)
    (h : (m.map Prod.fst).Nodup) : mapGet (mapDelete m k) k = none := by
  induction m with
  | nil => rfl
  | cons p rest ih =>
    obtain ⟨k0, v0⟩ := p
    simp only [List.map_cons, List.nodup_cons] at h
    rw [mapDelete]
    by_cases h0 : k0 = k
    · rw [if_pos h0]
      exact mapGet_eq_none_of_not_mem rest k (by rw [← h0]; exact h.1)
    · rw [if_neg h0, mapGet, if_neg h0, ih h.2]

theorem addToMemoryCache_disk (st : CacheState) (key : String) (e : CacheEntry) :
    (addToMemoryCache st key e).disk = st.disk := by
  simp only [addToMemoryCache]
  split
  · split
    · rfl
    · split <;> rfl
  · rfl

theorem addToMemoryCache_mapGet (st : CacheState) (key : String) (e : CacheEntry)
    (h : (st.memory.map Prod.fst).Nodup) :
    mapGet (addToMemoryCache st key e).memory key = some e ∨
      mapGet (addToMemoryCache st key e).memory key = none := by
  simp only [addToMemoryCache]
  split
  · split
    · exact Or.inl (mapGet_set_self st.memory key e)
    · rename_i oldest rest heq
      split
      · exact Or.inl (mapGet_set_self st.memory key e)
      · by_cases ho : oldest = key
        · subst ho
          exact Or.inr (mapGet_delete_self _ _ (keys_nodup_mapSet st.memory oldest e h))
        · rw [mapGet_delete_ne _ ho]
          exact Or.inl (mapGet_set_self st.memory key e)
  · exact Or.inl (mapGet_set_self st.memory key e)

/-! ### Helper lemmas: the fetcher -/

/-- Complete shape analysis of `fetchHtmlAndConvert`: it returns either a
full `success: true` result typed by `inferContentType`, or a
`success: false` result carrying only an error message. -/
theorem fetchHtmlAndConvert_shape (env : HtmlEnv) (url : String) :
    (∃ c m meta cb, fetchHtmlAndConvert env url =
      { success := true, content := some m, markdown := some m, html := some c,
        metadata := some meta, type := some (inferContentType url),
        codeBlocks := cb, source := some .html })
    ∨ ∃ msg, fetchHtmlAndConvert env url = { success := false, error := some msg } := by
  rw [fetchHtmlAndConvert]
  split
  · exact Or.inr ⟨_, rfl⟩
  · split
    · exact Or.inr ⟨_, rfl⟩
    · dsimp only
      split
      · exact Or.inr ⟨_, rfl⟩
      · exact Or.inl ⟨_, _, _, _, rfl⟩

/-- Complete shape analysis of `tryFetchWithCrawlee`: it returns `null`, a
full `success: true` result typed by `inferContentType`, or a
`success: false` result carrying only an error message. -/
theorem tryFetchWithCrawlee_shape (env : CrawleeEnv) (url : String) :
    tryFetchWithCrawlee env url = none
    ∨ (∃ c m meta cb, tryFetchWithCrawlee env url = some
      { success := true, content := some m, markdown := some m, html := some c,
        metadata := some meta, type := some (inferContentType url),
        codeBlocks := cb, source := some .crawlee })
    ∨ ∃ msg, tryFetchWithCrawlee env url = some { success := false, error := some msg } := by
  rw [tryFetchWithCrawlee]
  split
  · exact Or.inl rfl
  · exact Or.inl rfl
  · exact Or.inr (Or.inr ⟨_, rfl⟩)
  · exact Or.inr (Or.inr ⟨_, rfl⟩)
  · dsimp only
    split
    · exact Or.inr (Or.inr ⟨_, rfl⟩)
    · exact Or.inr (Or.inl ⟨_, _, _, _, rfl⟩)

/-- Whatever the oracles do, the strategy chain always attempts the direct
`.md` strategy first. -/
theorem runStrategies_attempted_head (env : FetchEnv) (st : CacheState) (url : String)
    (useCache : Bool) :
    (runStrategies env st url useCache).attempted.head? = some Strategy.direct := by
  rw [runStrategies]
  split
  · rfl
  · split
    · split
      · split
        · rfl
        · rfl
      · rfl
    · rfl

theorem tryFetchMarkdown_fields (oc : FetchOutcome) (url : String) (r : FetchResult)
    (h : tryFetchMarkdown oc url = some r) :
    r.success = true ∧ r.content.isSome = true ∧ r.error = none := by
  cases oc with
  | threw e => simp [tryFetchMarkdown] at h
  | resp response =>
    rw [tryFetchMarkdown] at h
    by_cases hok : response.ok
    · rw [if_pos hok] at h
      injection h with h2
      subst h2
      exact ⟨rfl, rfl, rfl⟩
    · rw [if_neg hok] at h
      exact Option.noConfusion h

theorem fetchUrl_reduce (env : FetchEnv) (url : String) (useCache : Bool)
    (h : useCache = false ∨ (getFromCache env.cacheState env.now url).value = none) :
    ∃ st, fetchUrl env url useCache = runStrategies env st url useCache := by
  cases useCache with
  | false => exact ⟨env.cacheState, rfl⟩
  | true =>
    rcases h with h | h
    · exact Bool.noConfusion h
    · exact ⟨(getFromCache env.cacheState env.now url).state,
        by simp only [fetchUrl, h]; rw [if_pos trivial]⟩

theorem fetchUrl_cache_hit (env : FetchEnv) (url : String) (cached : FetchResult)
    (h : (getFromCache env.cacheState env.now url).value = some cached) :
    fetchUrl env url true =
      { result := { cached with source := some SourceTag.cache }, attempted := [],
        cacheWrites := [], finalState := (getFromCache env.cacheState env.now url).state } := by
  have hdef : fetchUrl env url true = (
    match (getFromCache env.cacheState env.now url).value with
    | some c =>
      ({ result := { c with source := some SourceTag.cache }, attempted := [],
         cacheWrites := [],
         finalState := (getFromCache env.cacheState env.now url).state } : FetchUrlOutput)
    | none => runStrategies env (getFromCache env.cacheState env.now url).state url true) := rfl
  rw [hdef, h]

theorem runStrategies_cacheWrites_success (env : FetchEnv) (st : CacheState) (url : String)
    (useCache : Bool) (p : String × FetchResult)
    (hp : p ∈ (runStrategies env st url useCache).cacheWrites) : p.2.success = true := by
  rw [runStrategies] at hp
  rcases hm : tryFetchMarkdown env.mdFetchOutcome url with _ | r
  · rw [hm] at hp
    dsimp only at hp
    by_cases hj : isJsHeavyPage url
    · rw [if_pos hj] at hp
      rcases hc : env.crawleeResult with _ | cr
      · rw [hc] at hp
        rw [htmlFallback] at hp
        dsimp only at hp
        split at hp
        · rename_i hcond
          rcases List.mem_singleton.mp hp with rfl
          exact hcond.1
        · exact absurd hp (List.not_mem_nil p)
      · rw [hc] at hp
        dsimp only at hp
        by_cases hs : cr.success
        · rw [if_pos hs] at hp
          dsimp only at hp
          split at hp
          · rcases List.mem_singleton.mp hp with rfl
            exact hs
          · exact absurd hp (List.not_mem_nil p)
        · rw [if_neg hs] at hp
          rw [htmlFallback] at hp
          dsimp only at hp
          split at hp
          · rename_i hcond
            rcases List.mem_singleton.mp hp with rfl
            exact hcond.1
          · exact absurd hp (List.not_mem_nil p)
    · rw [if_neg hj] at hp
      rw [htmlFallback] at hp
      dsimp only at hp
      split at hp
      · rename_i hcond
        rcases List.mem_singleton.mp hp with rfl
        exact hcond.1
      · exact absurd hp (List.not_mem_nil p)
  · rw [hm] at hp
    dsimp only at hp
    split at hp
    · rcases List.mem_singleton.mp hp with rfl
      exact (tryFetchMarkdown_fields _ _ _ hm).1
    · exact absurd hp (List.not_mem_nil p)

/-! ### Claim theorems -/

/-- C8: the unescape transformation is the identity on any text containing
none of the three rewritten sequences (backslash-quote, backslash-apostrophe,
and the `&apos;` entity ending in a semicolon), hence applying it twice to
already clean text equals applying it once; the text `He said \"hi\"` maps
to `He said "hi"` and `It&apos;s fine` maps to `It's fine`, and re-applying
the transformation leaves both outputs unchanged. -/
theorem unescapeMarkdown_clean_fixed :
    (∀ s : String, cleanText s → unescapeMarkdown s = s)
    ∧ (∀ s : String, cleanText s → unescapeMarkdown (unescapeMarkdown s) = unescapeMarkdown s)
    ∧ unescapeMarkdown exEscapedText = exCleanText
    ∧ unescapeMarkdown exCleanText = exCleanText
    ∧ unescapeMarkdown exEntityText = exEntityClean
    ∧ unescapeMarkdown exEntityClean = exEntityClean := by
  have h1 : ∀ s : String, cleanText s → unescapeMarkdown s = s := by
    intro s hs
    obtain ⟨ha, hb, hc⟩ := hs
    rw [unescapeMarkdown, replaceAll_of_not_occurs _ _ _ ha, replaceAll_of_not_occurs _ _ _ hb,
      replaceAll_of_not_occurs _ _ _ hc]
  refine ⟨h1, fun s hs => by rw [h1 s hs, h1 s hs], by decide, by decide, by decide, by decide⟩

theorem unescapeMarkdown_clean_fixed_witness :
    cleanText exCleanText ∧ unescapeMarkdown exCleanText = exCleanText ∧
      unescapeMarkdown (unescapeMarkdown exCleanText) = unescapeMarkdown exCleanText :=
  ⟨by decide, unescapeMarkdown_clean_fixed.1 exCleanText (by decide),
    unescapeMarkdown_clean_fixed.2.1 exCleanText (by decide)⟩

/-- C7: content-type inference classifies a URL by substring matching
against a fixed ordered list with the first match winning (component docs
path, generic docs path, blocks, charts, themes, else `unknown`), the five
example URLs classify as the claim lists, and a successful HTML fetch is
tagged with exactly this inference. -/
theorem inferContentType_spec :
    (∀ url, strContains url "/docs/components/" = true → inferContentType url = CType.component)
    ∧ (∀ url, strContains url "/docs/components/" = false → strContains url "/docs/" = true →
        inferContentType url = CType.doc)
    ∧ (∀ url, strContains url "/docs/components/" = false → strContains url "/docs/" = false →
        strContains url "/blocks" = true → inferContentType url = CType.block)
    ∧ (∀ url, strContains url "/docs/components/" = false → strContains url "/docs/" = false →
        strContains url "/blocks" = false → strContains url "/charts" = true →
        inferContentType url = CType.chart)
    ∧ (∀ url, strContains url "/docs/components/" = false → strContains url "/docs/" = false →
        strContains url "/blocks" = false → strContains url "/charts" = false →
        strContains url "/themes" = true → inferContentType url = CType.theme)
    ∧ (∀ url, strContains url "/docs/components/" = false → strContains url "/docs/" = false →
        strContains url "/blocks" = false → strContains url "/charts" = false →
        strContains url "/themes" = false → inferContentType url = CType.unknown)
    ∧ inferContentType (SHADCN_BASE_URL ++ "/docs/components/button") = CType.component
    ∧ inferContentType (SHADCN_BASE_URL ++ "/docs/cli") = CType.doc
    ∧ inferContentType (SHADCN_BASE_URL ++ "/blocks/dashboard-01") = CType.block
    ∧ inferContentType (SHADCN_BASE_URL ++ "/charts/area-1") = CType.chart
    ∧ inferContentType (SHADCN_BASE_URL ++ "/themes") = CType.theme
    ∧ inferContentType (SHADCN_BASE_URL ++ "/examples") = CType.unknown
    ∧ (∀ env url, (fetchHtmlAndConvert env url).success = true →
        (fetchHtmlAndConvert env url).type = some (inferContentType url)) := by
  refine ⟨fun url h => by rw [inferContentType, if_pos h],
    fun url h1 h2 => by rw [inferContentType, if_neg (by simp [h1]), if_pos h2],
    fun url h1 h2 h3 => by
      rw [inferContentType, if_neg (by simp [h1]), if_neg (by simp [h2]), if_pos h3],
    fun url h1 h2 h3 h4 => by
      rw [inferContentType, if_neg (by simp [h1]), if_neg (by simp [h2]),
        if_neg (by simp [h3]), if_pos h4],
    fun url h1 h2 h3 h4 h5 => by
      rw [inferContentType, if_neg (by simp [h1]), if_neg (by simp [h2]),
        if_neg (by simp [h3]), if_neg (by simp [h4]), if_pos h5],
    fun url h1 h2 h3 h4 h5 => by
      rw [inferContentType, if_neg (by simp [h1]), if_neg (by simp [h2]),
        if_neg (by simp [h3]), if_neg (by simp [h4]), if_neg (by simp [h5])],
    by decide, by decide, by decide, by decide, by decide, by decide,
    fun env url h => ?_⟩
  rcases fetchHtmlAndConvert_shape env url with ⟨c, m, meta, cb, heq⟩ | ⟨msg, heq⟩
  · rw [heq]
  · rw [heq] at h
    exact absurd h (by simp)

theorem inferContentType_spec_witness :
    strContains (SHADCN_BASE_URL ++ "/docs/components/button") "/docs/components/" = true ∧
      inferContentType (SHADCN_BASE_URL ++ "/docs/components/button") = CType.component :=
  ⟨by decide, inferContentType_spec.1 (SHADCN_BASE_URL ++ "/docs/components/button") (by decide)⟩

/-- C2: `fetchUrl` tries strategies strictly in order and returns the first
non-null `success: true` result unchanged, invoking no later strategy.  A
non-null direct result is returned at once with only the direct strategy
attempted; and when the direct `.md` strategy returns null and the browser
(Crawlee) strategy returns a `success: true` result, `fetchUrl` returns the
browser strategy's output unchanged and the HTML-scrape strategy is never
invoked. -/
theorem fetchUrl_first_success_wins :
    (∀ env url r, tryFetchMarkdown env.mdFetchOutcome url = some r →
      (fetchUrl env url false).result = r ∧
        (fetchUrl env url false).attempted = [Strategy.direct])
    ∧ (∀ env url r, tryFetchMarkdown env.mdFetchOutcome url = none →
        isJsHeavyPage url = true → env.crawleeResult = some r → r.success = true →
        (fetchUrl env url false).result = r ∧
          (fetchUrl env url false).attempted = [Strategy.direct, Strategy.browser] ∧
          Strategy.html ∉ (fetchUrl env url false).attempted) := by
  constructor
  · intro env url r hmd
    have hfu : fetchUrl env url false = runStrategies env env.cacheState url false := rfl
    rw [hfu, runStrategies, hmd]
    exact ⟨rfl, rfl⟩
  · intro env url r hmd hjs hcr hsucc
    have hfu : fetchUrl env url false = runStrategies env env.cacheState url false := rfl
    rw [hfu, runStrategies, hmd]
    dsimp only
    rw [if_pos hjs, hcr]
    dsimp only
    rw [if_pos hsucc]
    refine ⟨rfl, rfl, by dsimp only; decide⟩

theorem fetchUrl_first_success_wins_witness :
    tryFetchMarkdown exEnvC2.mdFetchOutcome exUrlJs = none ∧
      isJsHeavyPage exUrlJs = true ∧
      exEnvC2.crawleeResult = some exCrawleeResult ∧
      exCrawleeResult.success = true ∧
      (fetchUrl exEnvC2 exUrlJs false).result = exCrawleeResult ∧
      (fetchUrl exEnvC2 exUrlJs false).attempted = [Strategy.direct, Strategy.browser] ∧
      Strategy.html ∉ (fetchUrl exEnvC2 exUrlJs false).attempted := by
  refine ⟨rfl, by decide, rfl, rfl, ?_⟩
  have h := fetchUrl_first_success_wins.2 exEnvC2 exUrlJs exCrawleeResult rfl (by decide) rfl rfl
  exact ⟨h.1, h.2.1, h.2.2⟩

/-- C3: the direct `.md` strategy is always attempted first; the browser
strategy is never invoked for a URL without a script-rendered path marker
(`/charts`, `/themes`, `/blocks`, `/colors`); when every strategy falls
through, a script-rendered URL yields attempt order [direct, browser, html]
and a plain URL yields [direct, html], the HTML strategy being the final
fallback in both shapes.  `exUrlJs` and `exUrlPlain` exhibit the two URL
shapes. -/
theorem fetchUrl_strategy_order :
    (∀ env url, (fetchUrl env url false).attempted.head? = some Strategy.direct)
    ∧ (∀ env url, isJsHeavyPage url = false →
        Strategy.browser ∉ (fetchUrl env url false).attempted)
    ∧ (∀ env url, isJsHeavyPage url = false →
        tryFetchMarkdown env.mdFetchOutcome url = none →
        (fetchUrl env url false).attempted = [Strategy.direct, Strategy.html])
    ∧ (∀ env url, isJsHeavyPage url = true →
        tryFetchMarkdown env.mdFetchOutcome url = none →
        (∀ r, env.crawleeResult = some r → r.success = false) →
        (fetchUrl env url false).attempted = [Strategy.direct, Strategy.browser, Strategy.html])
    ∧ isJsHeavyPage exUrlJs = true ∧ isJsHeavyPage exUrlPlain = false := by
  refine ⟨fun env url => runStrategies_attempted_head env env.cacheState url false,
    ?_, ?_, ?_, by decide, by decide⟩
  · intro env url hjs
    have hfu : fetchUrl env url false = runStrategies env env.cacheState url false := rfl
    rw [hfu, runStrategies]
    rcases hm : tryFetchMarkdown env.mdFetchOutcome url with _ | r
    · dsimp only
      rw [if_neg (by simp [hjs]), htmlFallback]
      dsimp only
      decide
    · dsimp only
      decide
  · intro env url hjs hmd
    have hfu : fetchUrl env url false = runStrategies env env.cacheState url false := rfl
    rw [hfu, runStrategies, hmd]
    dsimp only
    rw [if_neg (by simp [hjs]), htmlFallback]
    rfl
  · intro env url hjs hmd hcr
    have hfu : fetchUrl env url false = runStrategies env env.cacheState url false := rfl
    rw [hfu, runStrategies, hmd]
    dsimp only
    rw [if_pos hjs]
    rcases hc : env.crawleeResult with _ | r
    · dsimp only
      rw [htmlFallback]
      rfl
    · dsimp only
      rw [if_neg (by simp [hcr r hc]), htmlFallback]
      rfl

theorem fetchUrl_strategy_order_witness :
    isJsHeavyPage exUrlJs = true ∧
      tryFetchMarkdown exEnvAllFail.mdFetchOutcome exUrlJs = none ∧
      (fetchUrl exEnvAllFail exUrlJs false).attempted =
        [Strategy.direct, Strategy.browser, Strategy.html] ∧
      isJsHeavyPage exUrlPlain = false ∧
      tryFetchMarkdown exEnvAllFail.mdFetchOutcome exUrlPlain = none ∧
      (fetchUrl exEnvAllFail exUrlPlain false).attempted = [Strategy.direct, Strategy.html] := by
  refine ⟨by decide, rfl, ?_, by decide, rfl, ?_⟩
  · exact fetchUrl_strategy_order.2.2.2.1 exEnvAllFail exUrlJs (by decide) rfl
      (fun r hr => Option.noConfusion hr)
  · exact fetchUrl_strategy_order.2.2.1 exEnvAllFail exUrlPlain (by decide) rfl

/-- C10: `tryFetchMarkdown` never returns a `success: false` result — every
non-null value it returns has `success = true` — and `fetchUrl` returns any
non-null direct result without a further success check, caching it under
the requested URL. -/
theorem tryFetchMarkdown_never_fails :
    (∀ oc url r, tryFetchMarkdown oc url = some r → r.success = true)
    ∧ (∀ env url r, (getFromCache env.cacheState env.now url).value = none →
        tryFetchMarkdown env.mdFetchOutcome url = some r →
        (fetchUrl env url true).result = r ∧
          (fetchUrl env url true).cacheWrites = [(url, r)]) := by
  constructor
  · exact fun oc url r h => (tryFetchMarkdown_fields oc url r h).1
  · intro env url r hmiss hmd
    obtain ⟨st, hst⟩ := fetchUrl_reduce env url true (Or.inr hmiss)
    rw [hst, runStrategies, hmd]
    exact ⟨rfl, rfl⟩

theorem tryFetchMarkdown_never_fails_witness :
    tryFetchMarkdown exMdOkButton exButtonUrl = some exButtonResult ∧
      exButtonResult.success = true ∧
      (getFromCache exEnvMdOk.cacheState exEnvMdOk.now exButtonUrl).value = none ∧
      (fetchUrl exEnvMdOk exButtonUrl true).result = exButtonResult ∧
      (fetchUrl exEnvMdOk exButtonUrl true).cacheWrites = [(exButtonUrl, exButtonResult)] := by
  have h1 : tryFetchMarkdown exMdOkButton exButtonUrl = some exButtonResult := by decide
  have h2 := tryFetchMarkdown_never_fails.1 exMdOkButton exButtonUrl exButtonResult h1
  have h3 : (getFromCache exEnvMdOk.cacheState exEnvMdOk.now exButtonUrl).value = none := by
    decide
  have h4 := tryFetchMarkdown_never_fails.2 exEnvMdOk exButtonUrl exButtonResult h3 h1
  exact ⟨h1, h2, h3, h4.1, h4.2⟩

/-- C1 counterexample: when the `.md` endpoint answers 200 with an empty
body, `tryFetchMarkdown` returns a result with `success = true` whose
`content` is the empty string — refuting the claimed invariant that
`success = true` implies non-empty, non-whitespace content. -/
theorem fetch_success_nonempty_counterexample :
    tryFetchMarkdown exMdOkEmpty exUrlPlain = some exEmptyMdResult ∧
      exEmptyMdResult.success = true ∧ exEmptyMdResult.content = some "" := by
  exact ⟨by decide, rfl, rfl⟩

/-- C1 amended: for every result a strategy produces — direct, browser
(Crawlee), or HTML — and for every result `fetchUrl` returns past the
cache, `success = false` implies `error` is set and `content` absent, and
`success = true` implies the `content` field is present.  (Non-emptiness of
the content is not guaranteed, per the counterexample: `tryFetchMarkdown`
returns `success = true` with empty content on a 200 response with an empty
body.) -/
theorem fetchResult_field_discipline :
    (∀ oc url r, tryFetchMarkdown oc url = some r →
      r.success = true ∧ r.content.isSome = true ∧ r.error = none)
    ∧ (∀ cenv url r, tryFetchWithCrawlee cenv url = some r →
        (r.success = true → r.content.isSome = true ∧ r.error = none) ∧
          (r.success = false → r.error.isSome = true ∧ r.content = none))
    ∧ (∀ env url, (fetchHtmlAndConvert env url).success = true →
        (fetchHtmlAndConvert env url).content.isSome = true ∧
          (fetchHtmlAndConvert env url).error = none)
    ∧ (∀ env url, (fetchHtmlAndConvert env url).success = false →
        (fetchHtmlAndConvert env url).error.isSome = true ∧
          (fetchHtmlAndConvert env url).content = none)
    ∧ (∀ env cenv url useCache,
        (useCache = false ∨ (getFromCache env.cacheState env.now url).value = none) →
        env.crawleeResult = tryFetchWithCrawlee cenv url →
        ((fetchUrl env url useCache).result.success = true →
          (fetchUrl env url useCache).result.content.isSome = true ∧
            (fetchUrl env url useCache).result.error = none) ∧
          ((fetchUrl env url useCache).result.success = false →
            (fetchUrl env url useCache).result.error.isSome = true ∧
              (fetchUrl env url useCache).result.content = none)) := by
  have hhtmlT : ∀ env url, (fetchHtmlAndConvert env url).success = true →
      (fetchHtmlAndConvert env url).content.isSome = true ∧
        (fetchHtmlAndConvert env url).error = none := by
    intro env url h
    rcases fetchHtmlAndConvert_shape env url with ⟨c, m, meta, cb, heq⟩ | ⟨msg, heq⟩
    · rw [heq]
      exact ⟨rfl, rfl⟩
    · rw [heq] at h
      exact absurd h (by simp)
  have hhtmlF : ∀ env url, (fetchHtmlAndConvert env url).success = false →
      (fetchHtmlAndConvert env url).error.isSome = true ∧
        (fetchHtmlAndConvert env url).content = none := by
    intro env url h
    rcases fetchHtmlAndConvert_shape env url with ⟨c, m, meta, cb, heq⟩ | ⟨msg, heq⟩
    · rw [heq] at h
      exact absurd h (by simp)
    · rw [heq]
      exact ⟨rfl, rfl⟩
  have hcw : ∀ cenv url r, tryFetchWithCrawlee cenv url = some r →
      (r.success = true → r.content.isSome = true ∧ r.error = none) ∧
        (r.success = false → r.error.isSome = true ∧ r.content = none) := by
    intro cenv url r h
    rcases tryFetchWithCrawlee_shape cenv url with heq | ⟨c, m, meta, cb, heq⟩ | ⟨msg, heq⟩
    · rw [heq] at h
      exact Option.noConfusion h
    · rw [heq] at h
      injection h with h2
      subst h2
      exact ⟨fun _ => ⟨rfl, rfl⟩, fun hcon => Bool.noConfusion hcon⟩
    · rw [heq] at h
      injection h with h2
      subst h2
      exact ⟨fun hcon => Bool.noConfusion hcon, fun _ => ⟨rfl, rfl⟩⟩
  refine ⟨tryFetchMarkdown_fields, hcw, hhtmlT, hhtmlF, ?_⟩
  intro env cenv url useCache hcache hlink
  obtain ⟨st, hst⟩ := fetchUrl_reduce env url useCache hcache
  have hfall : ∀ sofar,
      (((htmlFallback env st url useCache sofar).result.success = true →
        (htmlFallback env st url useCache sofar).result.content.isSome = true ∧
          (htmlFallback env st url useCache sofar).result.error = none) ∧
        ((htmlFallback env st url useCache sofar).result.success = false →
          (htmlFallback env st url useCache sofar).result.error.isSome = true ∧
            (htmlFallback env st url useCache sofar).result.content = none)) := by
    intro sofar
    rw [htmlFallback]
    dsimp only
    exact ⟨hhtmlT env.htmlEnv url, hhtmlF env.htmlEnv url⟩
  rw [hst, runStrategies, hlink]
  rcases hm : tryFetchMarkdown env.mdFetchOutcome url with _ | r
  · dsimp only
    by_cases hj : isJsHeavyPage url
    · rw [if_pos hj]
      rcases tryFetchWithCrawlee_shape cenv url with heq | ⟨c, m, meta, cb, heq⟩ | ⟨msg, heq⟩
      all_goals rw [heq]
      · exact hfall _
      · dsimp only
        rw [if_pos rfl]
        exact ⟨fun _ => ⟨rfl, rfl⟩, fun hcon => Bool.noConfusion hcon⟩
      · dsimp only
        rw [if_neg (fun hcon => Bool.noConfusion hcon)]
        exact hfall _
    · rw [if_neg hj]
      exact hfall _
  · dsimp only
    obtain ⟨hs, hc, he⟩ := tryFetchMarkdown_fields env.mdFetchOutcome url r hm
    refine ⟨fun _ => ⟨hc, he⟩, fun hcon => ?_⟩
    rw [hs] at hcon
    exact Bool.noConfusion hcon

theorem fetchResult_field_discipline_witness :
    tryFetchMarkdown exMdOkButton exButtonUrl = some exButtonResult ∧
      (exButtonResult.success = true ∧ exButtonResult.content.isSome = true ∧
        exButtonResult.error = none) ∧
      tryFetchWithCrawlee exCrawleeEnvThrew exUrlJs =
        some { success := false, error := some "boom" } ∧
      ((FetchResult.mk false none none none none none none none none none
          (some "boom")).error.isSome = true ∧
        (FetchResult.mk false none none none none none none none none none
          (some "boom")).content = none) ∧
      (fetchHtmlAndConvert exHtmlEnvFail exUrlPlain).success = false ∧
      ((fetchHtmlAndConvert exHtmlEnvFail exUrlPlain).error.isSome = true ∧
        (fetchHtmlAndConvert exHtmlEnvFail exUrlPlain).content = none) ∧
      exEnvAllFail.crawleeResult = tryFetchWithCrawlee exCrawleeEnvCrashed exUrlPlain ∧
      (fetchUrl exEnvAllFail exUrlPlain true).result.success = false ∧
      ((fetchUrl exEnvAllFail exUrlPlain true).result.error.isSome = true ∧
        (fetchUrl exEnvAllFail exUrlPlain true).result.content = none) := by
  have h1 : tryFetchMarkdown exMdOkButton exButtonUrl = some exButtonResult := by decide
  have h2 : (fetchHtmlAndConvert exHtmlEnvFail exUrlPlain).success = false := by decide
  have h3 : tryFetchWithCrawlee exCrawleeEnvThrew exUrlJs =
      some { success := false, error := some "boom" } := by decide
  have h4 : (fetchUrl exEnvAllFail exUrlPlain true).result.success = false := by decide
  exact ⟨h1, fetchResult_field_discipline.1 exMdOkButton exButtonUrl exButtonResult h1, h3,
    (fetchResult_field_discipline.2.1 exCrawleeEnvThrew exUrlJs
      { success := false, error := some "boom" } h3).2 rfl,
    h2, fetchResult_field_discipline.2.2.2.1 exHtmlEnvFail exUrlPlain h2, rfl,
    h4, (fetchResult_field_discipline.2.2.2.2 exEnvAllFail exCrawleeEnvCrashed exUrlPlain true
      (Or.inr (by decide)) rfl).2 h4⟩

/-- C6 counterexample: in `exEnvAllFail` every strategy fails and the HTML
fetch throws an `Error` whose message is empty, so `fetchUrl` returns
`success: false` with `error` set to the empty string — refuting the claimed
non-emptiness of the surfaced error — while writing nothing to the cache. -/
theorem fetchUrl_exhaustion_counterexample :
    tryFetchMarkdown exEnvAllFail.mdFetchOutcome exUrlPlain = none ∧
      exEnvAllFail.crawleeResult = none ∧
      (fetchHtmlAndConvert exEnvAllFail.htmlEnv exUrlPlain).success = false ∧
      (fetchUrl exEnvAllFail exUrlPlain true).result.success = false ∧
      (fetchUrl exEnvAllFail exUrlPlain true).result.error = some "" ∧
      (fetchUrl exEnvAllFail exUrlPlain true).cacheWrites = [] := by
  exact ⟨rfl, rfl, by decide, by decide, by decide, by decide⟩

/-- C6 amended: if every strategy returns null or a `success: false`
result (and the cache misses), `fetchUrl` returns `success: false` with the
`error` field set — though possibly the empty string — and `saveToCache` is
never invoked; in general the cache receives writes only for results with
`success = true`. -/
theorem fetchUrl_exhaustion :
    (∀ env url useCache,
      (useCache = false ∨ (getFromCache env.cacheState env.now url).value = none) →
      tryFetchMarkdown env.mdFetchOutcome url = none →
      (∀ r, env.crawleeResult = some r → r.success = false) →
      (fetchHtmlAndConvert env.htmlEnv url).success = false →
      (fetchUrl env url useCache).result.success = false ∧
        (fetchUrl env url useCache).result.error.isSome = true ∧
        (fetchUrl env url useCache).cacheWrites = [])
    ∧ (∀ env url useCache p, p ∈ (fetchUrl env url useCache).cacheWrites →
        p.2.success = true) := by
  constructor
  · intro env url useCache hcache hmd hcr hhtml
    obtain ⟨st, hst⟩ := fetchUrl_reduce env url useCache hcache
    have herr : (fetchHtmlAndConvert env.htmlEnv url).error.isSome = true := by
      rcases fetchHtmlAndConvert_shape env.htmlEnv url with ⟨c, m, meta, cb, heq⟩ | ⟨msg, heq⟩
      · rw [heq] at hhtml
        exact absurd hhtml (by simp)
      · rw [heq]
        rfl
    have hfall : ∀ sofar, (htmlFallback env st url useCache sofar).result.success = false ∧
        (htmlFallback env st url useCache sofar).result.error.isSome = true ∧
        (htmlFallback env st url useCache sofar).cacheWrites = [] := by
      intro sofar
      rw [htmlFallback]
      dsimp only
      refine ⟨hhtml, herr, ?_⟩
      rw [if_neg]
      intro hcon
      rw [hcon.1] at hhtml
      exact Bool.noConfusion hhtml
    rw [hst, runStrategies, hmd]
    dsimp only
    by_cases hj : isJsHeavyPage url
    · rw [if_pos hj]
      rcases hc : env.crawleeResult with _ | r
      · exact hfall _
      · dsimp only
        rw [if_neg (by simp [hcr r hc])]
        exact hfall _
    · rw [if_neg hj]
      exact hfall _
  · intro env url useCache p hp
    rcases hcu : useCache with _ | _
    · subst hcu
      exact runStrategies_cacheWrites_success env env.cacheState url false p hp
    · subst hcu
      rcases hv : (getFromCache env.cacheState env.now url).value with _ | cached
      · obtain ⟨st, hst⟩ := fetchUrl_reduce env url true (Or.inr hv)
        rw [hst] at hp
        exact runStrategies_cacheWrites_success env st url true p hp
      · rw [fetchUrl_cache_hit env url cached hv] at hp
        exact absurd hp (List.not_mem_nil p)

theorem fetchUrl_exhaustion_witness :
    tryFetchMarkdown exEnvAllFail.mdFetchOutcome exUrlJs = none ∧
      (fetchHtmlAndConvert exEnvAllFail.htmlEnv exUrlJs).success = false ∧
      (fetchUrl exEnvAllFail exUrlJs true).result.success = false ∧
      (fetchUrl exEnvAllFail exUrlJs true).result.error.isSome = true ∧
      (fetchUrl exEnvAllFail exUrlJs true).cacheWrites = [] := by
  have h := fetchUrl_exhaustion.1 exEnvAllFail exUrlJs true (Or.inr (by decide)) rfl
    (fun r hr => Option.noConfusion hr) (by decide)
  exact ⟨rfl, by decide, h.1, h.2.1, h.2.2⟩

theorem getFromCache_memory_fresh (st : CacheState) (now : Nat) (url : String) (e : CacheEntry)
    (hm : mapGet st.memory (getCacheKey url) = some e) (hf : now - e.timestamp < CACHE_TTL) :
    getFromCache st now url =
      { value := some e.data,
        state :=
          { st with accessOrder :=
              st.accessOrder.erase (getCacheKey url) ++ [getCacheKey url] } } := by
  simp only [getFromCache]
  rw [hm]
  dsimp only
  rw [if_pos hf]

theorem getFromCache_memory_expired (st : CacheState) (now : Nat) (url : String) (e : CacheEntry)
    (hm : mapGet st.memory (getCacheKey url) = some e)
    (hexp : ¬ now - e.timestamp < CACHE_TTL) :
    getFromCache st now url =
      diskLookup
        { st with memory := mapDelete st.memory (getCacheKey url),
                  accessOrder := st.accessOrder.erase (getCacheKey url) }
        now (getCacheKey url) := by
  simp only [getFromCache]
  rw [hm]
  dsimp only
  rw [if_neg hexp]

theorem getFromCache_memory_none (st : CacheState) (now : Nat) (url : String)
    (hm : mapGet st.memory (getCacheKey url) = none) :
    getFromCache st now url = diskLookup st now (getCacheKey url) := by
  simp only [getFromCache]
  rw [hm]

theorem diskLookup_value_some (st : CacheState) (now : Nat) (key : String) (d : FetchResult)
    (h : (diskLookup st now key).value = some d) :
    ∃ e, st.disk key = DiskRead.entry e ∧ now - e.timestamp < CACHE_TTL ∧ d = e.data := by
  rw [diskLookup] at h
  rcases hd : st.disk key with e | _ | _ | _
  all_goals rw [hd] at h
  all_goals dsimp only at h
  · by_cases hf : now - e.timestamp < CACHE_TTL
    · rw [if_pos hf] at h
      dsimp only at h
      injection h with h2
      exact ⟨e, rfl, hf, h2.symm⟩
    · rw [if_neg hf] at h
      exact Option.noConfusion h
  · exact Option.noConfusion h
  · exact Option.noConfusion h
  · exact Option.noConfusion h

theorem diskLookup_entry_expired (st : CacheState) (now : Nat) (key : String) (e : CacheEntry)
    (hd : st.disk key = DiskRead.entry e) (hexp : ¬ now - e.timestamp < CACHE_TTL) :
    diskLookup st now key =
      { value := none,
        state := { st with disk := fun k => if k = key then DiskRead.absent else st.disk k } } := by
  rw [diskLookup, hd]
  dsimp only
  rw [if_neg hexp]

theorem diskLookup_no_entry (st : CacheState) (now : Nat) (key : String)
    (hd : st.disk key = DiskRead.corrupt ∨ st.disk key = DiskRead.ioError ∨
      st.disk key = DiskRead.absent) :
    diskLookup st now key = { value := none, state := st } := by
  rw [diskLookup]
  rcases hd with hd | hd | hd
  all_goals rw [hd]



theorem diskLookup_entry_fresh (st : CacheState) (now : Nat) (key : String) (e : CacheEntry)
    (hd : st.disk key = DiskRead.entry e) (hf : now - e.timestamp < CACHE_TTL) :
    diskLookup st now key = { value := some e.data, state := addToMemoryCache st key e } := by
  rw [diskLookup, hd]
  dsimp only
  rw [if_pos hf]

/-- C4: cache round-trip.  For any successful result `R` saved via
`saveToCache`, a `getFromCache` for the same URL while the entry's age is
below `CACHE_TTL` returns `R` with every field unchanged (given the
JavaScript `Map` key-uniqueness invariant of the memory tier and a
successful disk write); and a `fetchUrl` whose cache lookup hits returns the
cached result equal in every field except `source`, which becomes
`cache`. -/
theorem cache_round_trip :
    (∀ st now now2 url R, (st.memory.map Prod.fst).Nodup → now2 - now < CACHE_TTL →
      (getFromCache (saveToCache st now url R true) now2 url).value = some R)
    ∧ (∀ env url cached, (getFromCache env.cacheState env.now url).value = some cached →
        (fetchUrl env url true).result = { cached with source := some SourceTag.cache }) := by
  constructor
  · intro st now now2 url R hnodup hfresh
    have hsave : saveToCache st now url R true =
        { addToMemoryCache st (getCacheKey url)
            { data := R, timestamp := now, url := url } with
          disk := fun k =>
            if k = getCacheKey url then
              DiskRead.entry { data := R, timestamp := now, url := url }
            else (addToMemoryCache st (getCacheKey url)
              { data := R, timestamp := now, url := url }).disk k } := rfl
    rw [hsave]
    rcases addToMemoryCache_mapGet st (getCacheKey url)
        { data := R, timestamp := now, url := url } hnodup with hmem | hmem
    · simp only [getFromCache]
      rw [hmem]
      dsimp only
      rw [if_pos hfresh]
    · simp only [getFromCache]
      rw [hmem]
      dsimp only
      rw [diskLookup]
      dsimp only
      rw [if_pos rfl]
      dsimp only
      rw [if_pos hfresh]
  · intro env url cached h
    rw [fetchUrl_cache_hit env url cached h]

theorem cache_round_trip_witness :
    (emptyCacheState.memory.map Prod.fst).Nodup ∧ (1 : Nat) - 0 < CACHE_TTL ∧
      (getFromCache (saveToCache emptyCacheState 0 "u" exResult true) 1 "u").value =
        some exResult ∧
      (getFromCache exEnvCacheHit.cacheState exEnvCacheHit.now "u").value = some exResult ∧
      (fetchUrl exEnvCacheHit "u" true).result =
        { exResult with source := some SourceTag.cache } := by
  have hhit : (getFromCache exEnvCacheHit.cacheState exEnvCacheHit.now "u").value =
      some exResult := by decide
  exact ⟨by decide, by decide,
    cache_round_trip.1 emptyCacheState 0 1 "u" exResult (by decide) (by decide), hhit,
    cache_round_trip.2 exEnvCacheHit "u" exResult hhit⟩

/-- C5: TTL expiry.  `getFromCache` never returns data whose backing entry
has age at least `CACHE_TTL`; an expired memory-tier entry is removed from
the memory map and the access order and, when the persistent tier holds no
fresh entry either, the lookup returns absent and an expired persistent
entry is deleted; an expired persistent-tier entry found on a memory miss is
deleted with the lookup returning absent; and the periodic `cleanupCache`
sweep removes exactly the persistent entries of age at least `CACHE_TTL`,
leaving younger ones in place. -/
theorem cache_ttl_expiry :
    (∀ st now url d, (getFromCache st now url).value = some d →
      ∃ e, now - e.timestamp < CACHE_TTL ∧ d = e.data ∧
        (mapGet st.memory (getCacheKey url) = some e ∨
          st.disk (getCacheKey url) = DiskRead.entry e))
    ∧ (∀ st now url e, (st.memory.map Prod.fst).Nodup → st.accessOrder.Nodup →
        mapGet st.memory (getCacheKey url) = some e → now - e.timestamp ≥ CACHE_TTL →
        (∀ e2, st.disk (getCacheKey url) = DiskRead.entry e2 →
          now - e2.timestamp ≥ CACHE_TTL) →
        (getFromCache st now url).value = none ∧
          mapGet (getFromCache st now url).state.memory (getCacheKey url) = none ∧
          getCacheKey url ∉ (getFromCache st now url).state.accessOrder ∧
          (∀ e2, st.disk (getCacheKey url) = DiskRead.entry e2 →
            (getFromCache st now url).state.disk (getCacheKey url) = DiskRead.absent))
    ∧ (∀ st now url e, mapGet st.memory (getCacheKey url) = none →
        st.disk (getCacheKey url) = DiskRead.entry e → now - e.timestamp ≥ CACHE_TTL →
        (getFromCache st now url).value = none ∧
          (getFromCache st now url).state.disk (getCacheKey url) = DiskRead.absent)
    ∧ (∀ disk now k e, disk k = DiskRead.entry e →
        (now - e.timestamp ≥ CACHE_TTL → cleanupCache disk now k = DiskRead.absent) ∧
          (now - e.timestamp < CACHE_TTL → cleanupCache disk now k = DiskRead.entry e)) := by
  refine ⟨?_, ?_, ?_, ?_⟩
  · intro st now url d hv
    rcases hm : mapGet st.memory (getCacheKey url) with _ | e
    · rw [getFromCache_memory_none st now url hm] at hv
      obtain ⟨e, hd, hf, hde⟩ := diskLookup_value_some st now _ d hv
      exact ⟨e, hf, hde, Or.inr hd⟩
    · by_cases hf : now - e.timestamp < CACHE_TTL
      · rw [getFromCache_memory_fresh st now url e hm hf] at hv
        dsimp only at hv
        injection hv with h2
        exact ⟨e, hf, h2.symm, Or.inl rfl⟩
      · rw [getFromCache_memory_expired st now url e hm hf] at hv
        obtain ⟨e2, hd, hf2, hde⟩ := diskLookup_value_some _ now _ d hv
        exact ⟨e2, hf2, hde, Or.inr hd⟩
  · intro st now url e hnm hna hm hexp hdiskexp
    rw [getFromCache_memory_expired st now url e hm (Nat.not_lt.mpr hexp)]
    rcases hd : st.disk (getCacheKey url) with e2 | _ | _ | _
    · rw [diskLookup_entry_expired
        { memory := mapDelete st.memory (getCacheKey url),
          accessOrder := st.accessOrder.erase (getCacheKey url), disk := st.disk }
        now (getCacheKey url) e2 hd (Nat.not_lt.mpr (hdiskexp e2 hd))]
      refine ⟨rfl, mapGet_delete_self st.memory _ hnm, not_mem_erase_self hna _, ?_⟩
      intro e3 _
      dsimp only
      rw [if_pos rfl]
    · rw [diskLookup_no_entry
        { memory := mapDelete st.memory (getCacheKey url),
          accessOrder := st.accessOrder.erase (getCacheKey url), disk := st.disk }
        now (getCacheKey url) (Or.inl hd)]
      refine ⟨rfl, mapGet_delete_self st.memory _ hnm, not_mem_erase_self hna _, ?_⟩
      intro e3 h3
      exact DiskRead.noConfusion h3
    · rw [diskLookup_no_entry
        { memory := mapDelete st.memory (getCacheKey url),
          accessOrder := st.accessOrder.erase (getCacheKey url), disk := st.disk }
        now (getCacheKey url) (Or.inr (Or.inl hd))]
      refine ⟨rfl, mapGet_delete_self st.memory _ hnm, not_mem_erase_self hna _, ?_⟩
      intro e3 h3
      exact DiskRead.noConfusion h3
    · rw [diskLookup_no_entry
        { memory := mapDelete st.memory (getCacheKey url),
          accessOrder := st.accessOrder.erase (getCacheKey url), disk := st.disk }
        now (getCacheKey url) (Or.inr (Or.inr hd))]
      refine ⟨rfl, mapGet_delete_self st.memory _ hnm, not_mem_erase_self hna _, ?_⟩
      intro e3 h3
      exact DiskRead.noConfusion h3
  · intro st now url e hm hd hexp
    rw [getFromCache_memory_none st now url hm,
      diskLookup_entry_expired st now _ e hd (Nat.not_lt.mpr hexp)]
    refine ⟨rfl, ?_⟩
    dsimp only
    rw [if_pos rfl]
  · intro disk now k e hd
    constructor
    · intro hexp
      simp only [cleanupCache]
      rw [hd]
      dsimp only
      rw [if_pos hexp]
    · intro hf
      simp only [cleanupCache]
      rw [hd]
      dsimp only
      rw [if_neg (Nat.not_le.mpr hf)]

theorem cache_ttl_expiry_witness :
    mapGet exExpiredCacheState.memory (getCacheKey "u") =
        some { data := exResult, timestamp := 0, url := "u" } ∧
      CACHE_TTL - 0 ≥ CACHE_TTL ∧
      (getFromCache exExpiredCacheState CACHE_TTL "u").value = none ∧
      mapGet (getFromCache exExpiredCacheState CACHE_TTL "u").state.memory
        (getCacheKey "u") = none ∧
      getCacheKey "u" ∉ (getFromCache exExpiredCacheState CACHE_TTL "u").state.accessOrder := by
  have h := cache_ttl_expiry.2.1 exExpiredCacheState CACHE_TTL "u"
    { data := exResult, timestamp := 0, url := "u" } (by decide) (by decide) (by decide)
    (by decide) (fun e2 h2 => DiskRead.noConfusion h2)
  exact ⟨by decide, by decide, h.1, h.2.1, h.2.2.1⟩

/-- C9: `getFromCache` is a total function in this model — it never
raises — and when the persistent tier read fails (unparsable JSON or an I/O
error) while the memory tier has no fresh entry, the call returns `none`, a
plain cache miss, after which the orchestrator proceeds to the live
strategies starting with the direct fetch. -/
theorem getFromCache_never_raises :
    (∀ st now url,
      (mapGet st.memory (getCacheKey url) = none ∨
        (∃ e, mapGet st.memory (getCacheKey url) = some e ∧ now - e.timestamp ≥ CACHE_TTL)) →
      (st.disk (getCacheKey url) = DiskRead.corrupt ∨
        st.disk (getCacheKey url) = DiskRead.ioError) →
      (getFromCache st now url).value = none)
    ∧ (∀ env url, (getFromCache env.cacheState env.now url).value = none →
        (fetchUrl env url true).attempted.head? = some Strategy.direct) := by
  constructor
  · intro st now url hm hd
    rcases hm with hm | ⟨e, hm, hexp⟩
    · rw [getFromCache_memory_none st now url hm,
        diskLookup_no_entry st now _ (hd.imp id Or.inl)]
    · rw [getFromCache_memory_expired st now url e hm (Nat.not_lt.mpr hexp),
        diskLookup_no_entry
          { memory := mapDelete st.memory (getCacheKey url),
            accessOrder := st.accessOrder.erase (getCacheKey url), disk := st.disk }
          now (getCacheKey url) (hd.imp id Or.inl)]
  · intro env url hv
    obtain ⟨st, hst⟩ := fetchUrl_reduce env url true (Or.inr hv)
    rw [hst]
    exact runStrategies_attempted_head env st url true

theorem getFromCache_never_raises_witness :
    mapGet exCorruptCacheState.memory (getCacheKey exUrlPlain) = none ∧
      exCorruptCacheState.disk (getCacheKey exUrlPlain) = DiskRead.corrupt ∧
      (getFromCache exCorruptCacheState 0 exUrlPlain).value = none ∧
      (fetchUrl exEnvCorrupt exUrlPlain true).attempted.head? = some Strategy.direct := by
  refine ⟨rfl, rfl, ?_, ?_⟩
  · exact getFromCache_never_raises.1 exCorruptCacheState 0 exUrlPlain (Or.inl rfl)
      (Or.inl rfl)
  · exact getFromCache_never_raises.2 exEnvCorrupt exUrlPlain (by decide)

end ShadcnSvelteMcp
